import Mathlib

/-!
Verification of the noodles block-compression / genomic-index specification
against its source.  Pure fragments of the Rust source are embedded as
executable Lean functions; machine integers become Nat/Int with explicit
reductions modulo 2^w where overflow matters; fallible code returns Except
or Option.  Components of the repository that are referenced by the spec and
the sampled files but whose implementation is not part of the sample (the
BGZF block codec, the virtual-offset primitive, the parallel block writer,
a few leaf accessors) are modelled from the spec; each such definition says
so in its doc comment.
-/

/-- Error kinds of std::io::ErrorKind that the embedded functions use. -/
inductive IoErrorKind where
  | unexpectedEof
  | invalidData
  | invalidInput
deriving DecidableEq

/-- Little-endian encoding of a 16-bit value as two bytes. -/
def u16le (n : Nat) : List Nat := [n % 256, n / 256 % 256]

/-- Little-endian encoding of a 32-bit value as four bytes. -/
def u32le (n : Nat) : List Nat :=
  [n % 256, n / 256 % 256, n / 65536 % 256, n / 16777216 % 256]

/-- Little-endian decoding of two bytes. -/
def readU16le (bs : List Nat) : Nat := bs.getD 0 0 + 256 * bs.getD 1 0

/-- Little-endian decoding of four bytes. -/
def readU32le (bs : List Nat) : Nat :=
  bs.getD 0 0 + 256 * bs.getD 1 0 + 65536 * bs.getD 2 0 + 16777216 * bs.getD 3 0

/-- Modelled from the spec: the external deflate compressor used by the BGZF
block codec is an external collaborator (general-purpose compression is a
declared non-goal); it is abstracted as a stored encoding that emits the
payload literally.  The compression level is carried but a stored encoding
ignores it. -/
def deflateCompress (_level : Nat) (payload : List Nat) : List Nat := payload

/-- Modelled from the spec: the inverse of the abstracted deflate
compressor. -/
def deflateDecompress (comp : List Nat) : List Nat := comp

/-- Modelled from the spec: the 32-bit integrity checksum of the uncompressed
content (CRC32 in the concrete container), abstracted as an executable
32-bit checksum function. -/
def checksum32 (payload : List Nat) : Nat :=
  payload.foldl (fun a b => (a * 31 + b) % 4294967296) 7

/-- Modelled from the spec: the fixed 4-byte magic of a block header plus the
compression-method flag and the 2-ASCII-byte extra-field subtype tag. -/
def blockHeaderMagic : List Nat := [31, 139, 8, 4, 8, 66, 67]

/-- Modelled from the spec (block codec, encode): given at most 65536 payload
bytes and a compression level, emit the fixed magic and method flag, the
extra field whose 16-bit value declares the size of the whole block minus
one (resolved by compressing first and then writing the size), the
compressed payload, and a trailer with the checksum and the uncompressed
size of the payload. -/
def encodeBlock (level : Nat) (payload : List Nat) : List Nat :=
  let comp := deflateCompress level payload
  blockHeaderMagic ++ u16le ((comp.length + 16) % 65536) ++ comp ++
    u32le (checksum32 payload) ++ u32le (payload.length % 4294967296)

/-- Modelled from the spec (block codec, decode): a truncated block fails
with an UnexpectedEof condition; a magic or extra-field mismatch, a declared
compressed-size inconsistency, a checksum mismatch, or a declared
uncompressed-size mismatch fails with an InvalidData condition; otherwise
the decompressed payload is returned. -/
def decodeBlock (block : List Nat) : Except IoErrorKind (List Nat) :=
  if block.length < 17 then .error .unexpectedEof
  else if block.take 7 ≠ blockHeaderMagic then .error .invalidData
  else if readU16le ((block.drop 7).take 2) ≠ (block.length - 1) % 65536 then
    .error .invalidData
  else
    let comp := (block.drop 9).take (block.length - 17)
    let payload := deflateDecompress comp
    let trailer := block.drop (block.length - 8)
    if readU32le (trailer.take 4) ≠ checksum32 payload then .error .invalidData
    else if readU32le (trailer.drop 4) ≠ payload.length % 4294967296 then
      .error .invalidData
    else .ok payload

/-- Modelled from the spec: the canonical end-of-stream marker, a fixed
literal 28-byte block with uncompressed size 0. -/
def eofMarker : List Nat :=
  [31, 139, 8, 4, 0, 0, 0, 0, 0, 255, 6, 0, 66, 67, 2, 0, 27, 0,
   3, 0, 0, 0, 0, 0, 0, 0, 0, 0]

/-- Modelled from the spec (block stream writer): bytes are staged in a
65536-byte buffer and one full block is flushed each time the bound is
reached, so the logical stream is cut into successive chunks of 65536 bytes
with a final shorter chunk for the remaining staged bytes. -/
def chunkify (input : List Nat) : List (List Nat) :=
  if input.length = 0 then []
  else if _h : input.length ≤ 65536 then [input]
  else input.take 65536 :: chunkify (input.drop 65536)
termination_by input.length
decreasing_by simp only [List.length_drop]; omega

/-- Modelled from the spec (sequential block stream writer): each staged
chunk is flushed through the block codec in order and the fixed
end-of-stream marker block is appended on close. -/
def seqWrite (level : Nat) (input : List Nat) : List Nat :=
  ((chunkify input).map (encodeBlock level)).flatten ++ eofMarker

/-- Modelled from the spec (parallel writer, commit step): completed
compression results are tagged with their sequence index and committed
strictly in index order. -/
def commitInOrder (completed : List (Nat × List Nat)) (k : Nat) : List Nat :=
  ((List.range k).map fun i =>
    (Option.map Prod.snd (completed.find? fun t => t.fst == i)).getD []).flatten

/-- Modelled from the spec (parallel block stream writer): the logical
stream is cut into fixed-size chunks; a pool of workers compresses the
chunks, each task tagged with its sequence index; tasks finish in an
arbitrary completion order, given here as the list of task indices in the
order the pool completes them; completed blocks are committed to the sink
strictly in sequence-index order, and the end-of-stream marker follows. -/
def parWrite (_workers : Nat) (order : List Nat) (level : Nat)
    (input : List Nat) : List Nat :=
  let chunks := chunkify input
  let completed := order.filterMap fun j =>
    if j < chunks.length then some (j, encodeBlock level (chunks.getD j []))
    else none
  commitInOrder completed chunks.length ++ eofMarker

/-- Modelled from the spec (virtual offset): a 64-bit value packing the
compressed-block file offset in the high 48 bits and the uncompressed
in-block offset in the low 16 bits; construction validates that the
in-block offset is below 65536 and fails with an InvalidInput condition
otherwise. -/
def composeVirtualOffset (blockOffset inBlockOffset : Nat) :
    Except IoErrorKind Nat :=
  if inBlockOffset < 65536 then
    .ok ((blockOffset * 65536 + inBlockOffset) % 18446744073709551616)
  else .error .invalidInput

/-- Modelled from the spec (virtual offset): decomposition of the packed
64-bit value into the compressed-block file offset and the in-block
offset. -/
def decomposeVirtualOffset (v : Nat) : Nat × Nat := (v / 65536, v % 65536)

/-- Embeds noodles-bam src/async/reader/record.rs read_record.  The byte
source is a list; reading the 4-byte little-endian block size of a record
when fewer than 4 bytes remain is the UnexpectedEof that the code maps to
Ok(0); reading the payload short is an UnexpectedEof error; otherwise the
record is decoded (the decoder, from another module, is a parameter) and
the declared block size is returned. -/
def read_record (decode_record : List Nat → Except IoErrorKind Unit)
    (src : List Nat) : Except IoErrorKind Nat :=
  if src.length < 4 then .ok 0
  else
    let blockSize := readU32le (src.take 4)
    let rest := src.drop 4
    if rest.length < blockSize then .error .unexpectedEof
    else
      match decode_record (rest.take blockSize) with
      | .ok _ => .ok blockSize
      | .error e => .error e

/-- Embeds noodles-tabix index/header/format.rs CoordinateSystem. -/
inductive CoordinateSystem where
  | gff
  | bed
deriving DecidableEq

/-- Embeds noodles-tabix index/header/format.rs Format. -/
inductive TabixFormat where
  | generic (cs : CoordinateSystem)
  | sam
  | vcf
deriving DecidableEq

/-- Embeds the noodles-tabix index Header struct whose fields are assigned
by Builder::build. -/
structure TabixHeader where
  format : TabixFormat
  reference_sequence_name_index : Nat
  start_position_index : Nat
  end_position_index : Option Nat
  line_comment_prefix : Nat
  line_skip_count : Nat
deriving DecidableEq

/-- Embeds noodles-tabix index/header/builder.rs Builder. -/
structure TabixHeaderBuilder where
  format : TabixFormat
  reference_sequence_name_index : Nat
  start_position_index : Nat
  end_position_index : Option Nat
  line_comment_prefix : Nat
  line_skip_count : Nat

/-- Embeds Builder::bed. -/
def TabixHeaderBuilder.bed : TabixHeaderBuilder where
  format := .generic .bed
  reference_sequence_name_index := 1
  start_position_index := 2
  end_position_index := some 3
  line_comment_prefix := 35
  line_skip_count := 0

/-- Embeds Builder::gff. -/
def TabixHeaderBuilder.gff : TabixHeaderBuilder where
  format := .generic .gff
  reference_sequence_name_index := 1
  start_position_index := 4
  end_position_index := some 5
  line_comment_prefix := 35
  line_skip_count := 0

/-- Embeds Builder::sam. -/
def TabixHeaderBuilder.sam : TabixHeaderBuilder where
  format := .sam
  reference_sequence_name_index := 3
  start_position_index := 4
  end_position_index := none
  line_comment_prefix := 64
  line_skip_count := 0

/-- Embeds Builder::vcf. -/
def TabixHeaderBuilder.vcf : TabixHeaderBuilder where
  format := .vcf
  reference_sequence_name_index := 1
  start_position_index := 2
  end_position_index := none
  line_comment_prefix := 35
  line_skip_count := 0

/-- Embeds the Default impl for Builder, which delegates to Builder::gff. -/
def TabixHeaderBuilder.default : TabixHeaderBuilder := TabixHeaderBuilder.gff

/-- Embeds Builder::set_format. -/
def TabixHeaderBuilder.set_format (b : TabixHeaderBuilder) (f : TabixFormat) :
    TabixHeaderBuilder :=
  { b with format := f }

/-- Embeds Builder::set_reference_sequence_name_index. -/
def TabixHeaderBuilder.set_reference_sequence_name_index
    (b : TabixHeaderBuilder) (i : Nat) : TabixHeaderBuilder :=
  { b with reference_sequence_name_index := i }

/-- Embeds Builder::set_start_position_index. -/
def TabixHeaderBuilder.set_start_position_index (b : TabixHeaderBuilder)
    (i : Nat) : TabixHeaderBuilder :=
  { b with start_position_index := i }

/-- Embeds Builder::set_end_position_index. -/
def TabixHeaderBuilder.set_end_position_index (b : TabixHeaderBuilder)
    (i : Option Nat) : TabixHeaderBuilder :=
  { b with end_position_index := i }

/-- Embeds Builder::set_line_comment_prefix. -/
def TabixHeaderBuilder.set_line_comment_prefix (b : TabixHeaderBuilder)
    (c : Nat) : TabixHeaderBuilder :=
  { b with line_comment_prefix := c }

/-- Embeds Builder::set_line_skip_count. -/
def TabixHeaderBuilder.set_line_skip_count (b : TabixHeaderBuilder)
    (n : Nat) : TabixHeaderBuilder :=
  { b with line_skip_count := n }

/-- Embeds Builder::build, which moves every builder field into the
header. -/
def TabixHeaderBuilder.build (b : TabixHeaderBuilder) : TabixHeader where
  format := b.format
  reference_sequence_name_index := b.reference_sequence_name_index
  start_position_index := b.start_position_index
  end_position_index := b.end_position_index
  line_comment_prefix := b.line_comment_prefix
  line_skip_count := b.line_skip_count

/-- Models a Rust Vec as its contents plus its allocated capacity, so that
Vec::with_capacity is observable. -/
structure RustVec where
  data : List Nat
  capacity : Nat
deriving DecidableEq

/-- Embeds Vec::with_capacity. -/
def RustVec.withCapacity (n : Nat) : RustVec where
  data := []
  capacity := n

/-- Modelled from the spec: the staging-buffer bound of the block stream
writer, the maximum uncompressed block payload size of 65536 bytes. -/
def MAX_BUF_SIZE : Nat := 65536

/-- Embeds the noodles-bgzf Writer struct whose fields are assigned by
Builder::build_from_writer. -/
structure BgzfWriter (W : Type) where
  inner : Option W
  position : Nat
  staging_buf : RustVec
  compression_buf : List Nat
  compression_level : Nat

/-- Embeds noodles-bgzf writer/builder.rs Builder. -/
structure BgzfWriterBuilder where
  compression_level : Nat

/-- Embeds the Default impl for the writer builder; per the source doc
comment the compression level defaults to level 6. -/
def BgzfWriterBuilder.default : BgzfWriterBuilder where
  compression_level := 6

/-- Embeds Builder::set_compression_level. -/
def BgzfWriterBuilder.set_compression_level (b : BgzfWriterBuilder)
    (level : Nat) : BgzfWriterBuilder :=
  { b with compression_level := level }

/-- Embeds Builder::build_from_writer. -/
def BgzfWriterBuilder.build_from_writer {W : Type} (b : BgzfWriterBuilder)
    (w : W) : BgzfWriter W where
  inner := some w
  position := 0
  staging_buf := RustVec.withCapacity MAX_BUF_SIZE
  compression_buf := []
  compression_level := b.compression_level

/-- Modelled from the spec: the virtual position of a block stream writer
combines the file offset of the block being staged with the staged byte
count, packed as a 64-bit virtual offset. -/
def BgzfWriter.virtual_position {W : Type} (w : BgzfWriter W) : Nat :=
  (w.position * 65536 + w.staging_buf.data.length) % 18446744073709551616

/-- Modelled from the spec: the optional per-reference metadata of a binning
index entry, holding first/last record virtual offsets and the mapped and
unmapped record counts. -/
structure BaiMetadata where
  start_position : Nat
  end_position : Nat
  mapped_record_count : Nat
  unmapped_record_count : Nat
deriving DecidableEq

/-- Modelled from the spec: one reference-sequence entry of a binning index,
owning a bin-to-chunk-list mapping, a linear index, and the optional
metadata. -/
structure BaiReferenceSequence where
  bins : List (Nat × List (Nat × Nat))
  linear_index : List Nat
  metadata : Option BaiMetadata
deriving DecidableEq

/-- Modelled from the spec: a binning index, an ordered sequence of
reference-sequence entries plus an optional global count of unplaced
unmapped records. -/
structure BaiIndex where
  reference_sequences : List BaiReferenceSequence
  unplaced_unmapped_record_count : Option Nat
deriving DecidableEq

/-- Embeds the per-reference loop of noodles-bam examples/bam_idxstats.rs:
the header reference sequences (name id and length) are zipped with the
index reference sequences, and each row reports the mapped and unmapped
record counts of the metadata, or the Default pair (0, 0) when the metadata
is absent. -/
def idxstatsRows (refs : List (Nat × Nat)) (index : BaiIndex) :
    List (Nat × Nat × Nat × Nat) :=
  (refs.zip index.reference_sequences).map fun p =>
    let counts :=
      (Option.map (fun m => (m.mapped_record_count, m.unmapped_record_count))
        p.snd.metadata).getD (0, 0)
    (p.fst.fst, p.fst.snd, counts.fst, counts.snd)

/-- Embeds the trailing line of bam_idxstats.rs: the global unplaced
unmapped record count, or the Default value 0 when it is absent. -/
def idxstatsUnplaced (index : BaiIndex) : Nat :=
  index.unplaced_unmapped_record_count.getD 0

/-- Embeds usize::checked_sub. -/
def checkedSub (a b : Nat) : Option Nat :=
  if b ≤ a then some (a - b) else none

/-- Embeds the noodles-bed record/fields/bounds.rs Bounds struct. -/
structure BedBounds where
  reference_sequence_name_end : Nat
  feature_start_end : Nat
  feature_end_end : Nat
  other_fields_ends : List Nat

/-- Embeds Bounds::reference_sequence_name_range; a Rust Range is modelled
as the pair of its start and its end. -/
def BedBounds.reference_sequence_name_range (b : BedBounds) : Nat × Nat :=
  (0, b.reference_sequence_name_end)

/-- Embeds Bounds::feature_start_range. -/
def BedBounds.feature_start_range (b : BedBounds) : Nat × Nat :=
  (b.reference_sequence_name_end, b.feature_start_end)

/-- Embeds Bounds::feature_end_range. -/
def BedBounds.feature_end_range (b : BedBounds) : Nat × Nat :=
  (b.feature_start_end, b.feature_end_end)

/-- Embeds Bounds::get: the end comes from other_fields_ends at the given
index (None when out of range); the start is the previous recorded end,
obtained through checked_sub and a second lookup, defaulting to 0. -/
def BedBounds.get (b : BedBounds) (i : Nat) : Option (Nat × Nat) :=
  match b.other_fields_ends.get? i with
  | none => none
  | some e =>
    let start :=
      (((checkedSub i 1).bind fun p => b.other_fields_ends.get? p).getD 0)
    some (start, e)

/-- Embeds the BCF codec value type Int8::MAX_VALUE, pinned by the unit
tests of the sampled encoder file. -/
def int8MaxValue : Int := 127

/-- Embeds Int8::MIN_VALUE (the BCF Int8 value range reserves the low
codes, so the minimum is -120), pinned by the unit tests of the sampled
encoder file. -/
def int8MinValue : Int := -120

/-- Embeds Int16::MAX_VALUE. -/
def int16MaxValue : Int := 32767

/-- Embeds Int16::MIN_VALUE, pinned by the unit tests of the sampled
encoder file. -/
def int16MinValue : Int := -32760

/-- Embeds Int32::MIN_VALUE, pinned by the unit tests of the sampled
encoder file. -/
def int32MinValue : Int := -2147483640

/-- The integer width a BCF INFO value is encoded at. -/
inductive BcfIntWidth where
  | int8
  | int16
  | int32
deriving DecidableEq

/-- Embeds noodles-bcf write_integer_value from
record/codec/encoder/site/info/field/value.rs, abstracted to return the
width selected for the written value; the branch structure is that of the
source. -/
def write_integer_value (n : Int) : Except IoErrorKind BcfIntWidth :=
  if 0 ≤ n then
    if n ≤ int8MaxValue then .ok .int8
    else if n ≤ int16MaxValue then .ok .int16
    else .ok .int32
  else if int8MinValue ≤ n then .ok .int8
  else if int16MinValue ≤ n then .ok .int16
  else if int32MinValue ≤ n then .ok .int32
  else .error .invalidInput

/-- Embeds slice::strip_suffix for byte slices: when the slice ends with the
suffix, the slice without that suffix, and None otherwise. -/
def stripSuffix (l s : List Nat) : Option (List Nat) :=
  if s.length ≤ l.length ∧ l.drop (l.length - s.length) = s then
    some (l.take (l.length - s.length))
  else none

/-- Embeds noodles-bam lazy/record/read_name.rs ReadName::as_bytes: strip
one trailing NUL byte when present, via strip_suffix and unwrap_or. -/
def ReadName.as_bytes (src : List Nat) : List Nat :=
  (stripSuffix src [0]).getD src

theorem readU16le_u16le (n : Nat) (h : n < 65536) : readU16le (u16le n) = n := by
  simp only [readU16le, u16le, List.getD, List.get?, Option.getD]
  omega

theorem readU32le_u32le (n : Nat) (h : n < 4294967296) : readU32le (u32le n) = n := by
  simp only [readU32le, u32le, List.getD, List.get?, Option.getD]
  omega

theorem checksum32_lt (payload : List Nat) : checksum32 payload < 4294967296 := by
  have key : ∀ (l : List Nat) (a : Nat), a < 4294967296 →
      List.foldl (fun a b => (a * 31 + b) % 4294967296) a l < 4294967296 := by
    intro l
    induction l with
    | nil => intro a ha; simpa using ha
    | cons b t ih =>
      intro a ha
      simpa using ih ((a * 31 + b) % 4294967296) (Nat.mod_lt _ (by omega))
  exact key payload 7 (by omega)

/-- Claim C5: every field of the tabix Format C index header round-trips
through the builder: building after setting the format, the reference
sequence name column index, the start position column index, the (optionally
absent) end position column index, the line-comment prefix byte, or the
leading-line-skip count yields a header whose corresponding accessor returns
exactly the value that was set. -/
theorem tabixHeaderBuilder_set_build_get (b : TabixHeaderBuilder)
    (f : TabixFormat) (i j : Nat) (e : Option Nat) (c n : Nat) :
    TabixHeader.format (TabixHeaderBuilder.build (b.set_format f)) = f ∧
    TabixHeader.reference_sequence_name_index
      (TabixHeaderBuilder.build (b.set_reference_sequence_name_index i)) = i ∧
    TabixHeader.start_position_index
      (TabixHeaderBuilder.build (b.set_start_position_index j)) = j ∧
    TabixHeader.end_position_index
      (TabixHeaderBuilder.build (b.set_end_position_index e)) = e ∧
    TabixHeader.line_comment_prefix
      (TabixHeaderBuilder.build
        ( TabixHeaderBuilder.set_line_comment_prefix b c)) = c ∧
    TabixHeader.line_skip_count
      (TabixHeaderBuilder.build (b.set_line_skip_count n)) = n :=
  ⟨rfl, rfl, rfl, rfl, rfl, rfl⟩

/-- Claim C6: for every underlying sink and compression level, the BGZF
writer built by the builder starts at virtual position 0, with an empty
staging buffer whose capacity is the maximum block payload size of 65536
bytes, and stores the compression level set on the builder, level 6 when
none was set. -/
theorem bgzfWriterBuilder_build_initial_state {W : Type} (w : W)
    (level : Nat) :
    BgzfWriter.virtual_position
      ((BgzfWriterBuilder.default.set_compression_level level).build_from_writer w) = 0 ∧
    ((BgzfWriterBuilder.default.set_compression_level level).build_from_writer w).staging_buf.data = [] ∧
    ((BgzfWriterBuilder.default.set_compression_level level).build_from_writer w).staging_buf.capacity = MAX_BUF_SIZE ∧
    MAX_BUF_SIZE = 65536 ∧
    BgzfWriter.compression_level
      ((BgzfWriterBuilder.default.set_compression_level level).build_from_writer w) = level ∧
    BgzfWriter.compression_level
      (BgzfWriterBuilder.default.build_from_writer w) = 6 := by
  refine ⟨?_, rfl, rfl, rfl, rfl, rfl⟩
  simp [BgzfWriter.virtual_position, BgzfWriterBuilder.build_from_writer,
    RustVec.withCapacity]

/-- Claim C9: the BCF INFO integer encoder selects the narrowest width
whose value range contains the value, Int8 on [-120, 127], Int16 on
[-32760, 32767] outside the Int8 range, Int32 on [-2147483640, 2147483647]
outside the Int16 range, and fails with an InvalidInput error exactly when
the value is below -2147483640. -/
theorem write_integer_value_width_selection (n : Int)
    (hlo : -2147483648 ≤ n) (hhi : n ≤ 2147483647) :
    ((-120 ≤ n ∧ n ≤ 127) → write_integer_value n = Except.ok BcfIntWidth.int8) ∧
    ((-32760 ≤ n ∧ n ≤ 32767 ∧ ¬(-120 ≤ n ∧ n ≤ 127)) →
      write_integer_value n = Except.ok BcfIntWidth.int16) ∧
    ((-2147483640 ≤ n ∧ ¬(-32760 ≤ n ∧ n ≤ 32767)) →
      write_integer_value n = Except.ok BcfIntWidth.int32) ∧
    (write_integer_value n = Except.error IoErrorKind.invalidInput ↔
      n < -2147483640) := by
  unfold write_integer_value int8MaxValue int8MinValue int16MaxValue
    int16MinValue int32MinValue
  split_ifs <;>
    refine ⟨fun h => ?_, fun h => ?_, fun h => ?_, ?_⟩ <;>
    first
      | rfl
      | (exfalso; omega)
      | (constructor <;> intro h2 <;> first | omega | simp_all)

theorem write_integer_value_width_selection_witness :
    write_integer_value 100 = Except.ok BcfIntWidth.int8 ∧
    write_integer_value (-121) = Except.ok BcfIntWidth.int16 ∧
    write_integer_value 32768 = Except.ok BcfIntWidth.int32 ∧
    write_integer_value (-2147483641) = Except.error IoErrorKind.invalidInput :=
  ⟨(write_integer_value_width_selection 100 (by decide) (by decide)).1
      (by decide),
   (write_integer_value_width_selection (-121) (by decide) (by decide)).2.1
      (by decide),
   (write_integer_value_width_selection 32768 (by decide) (by decide)).2.2.1
      (by decide),
   ((write_integer_value_width_selection (-2147483641) (by decide)
      (by decide)).2.2.2).mpr (by decide)⟩

theorem strip_suffix_concat (t : List Nat) (a : Nat) :
    stripSuffix (t ++ [a]) [0] = if a = 0 then some t else none := by
  have h1 : (t ++ [a]).length - ([0] : List Nat).length = t.length := by simp
  unfold stripSuffix
  rw [h1, List.drop_left, List.take_left]
  by_cases ha : a = 0
  · subst ha
    simp
  · rw [if_neg ha, if_neg]
    intro hc
    exact ha (by simpa using hc.2)

/-- Claim C10: the lazy BAM ReadName::as_bytes strips exactly the final
byte when it is the NUL terminator 0x00 and returns the bytes unchanged
otherwise; it strips at most one trailing NUL and is total. -/
theorem readName_as_bytes_strips_one_nul (b : List Nat) :
    ReadName.as_bytes b = if b.getLast? = some 0 then b.dropLast else b := by
  induction b using List.reverseRecOn with
  | nil => simp [ReadName.as_bytes, stripSuffix]
  | append_singleton t a _ =>
    rw [ReadName.as_bytes, strip_suffix_concat, List.getLast?_concat,
      List.dropLast_concat]
    by_cases ha : a = 0
    · subst ha; simp
    · rw [if_neg ha, if_neg (by simpa using ha), Option.getD_none]

/-- Claim C3 counterexample: the packed virtual offset is a 64-bit value
whose high 48 bits hold the block offset, so constructing from the block
offset 2^48 with in-block offset 0 succeeds but wraps to 0, and decomposing
does not recover the original pair. -/
theorem composeVirtualOffset_wraps_at_2pow48 :
    composeVirtualOffset 281474976710656 0 = Except.ok 0 ∧
    decomposeVirtualOffset 0 ≠ (281474976710656, 0) := by
  constructor
  · rfl
  · decide

/-- Claim C3 (amended): for every block offset below 2^48 and every
in-block offset below 65536, composing a virtual offset and decomposing it
recovers exactly the original pair; and for every in-block offset of at
least 65536, composition fails with an InvalidInput condition. -/
theorem virtualOffset_compose_decompose (b i : Nat) :
    (b < 281474976710656 → i < 65536 →
      composeVirtualOffset b i = Except.ok (b * 65536 + i) ∧
      decomposeVirtualOffset (b * 65536 + i) = (b, i)) ∧
    (65536 ≤ i →
      composeVirtualOffset b i = Except.error IoErrorKind.invalidInput) := by
  constructor
  · intro hb hi
    constructor
    · unfold composeVirtualOffset
      rw [if_pos hi]
      congr 1
      apply Nat.mod_eq_of_lt
      omega
    · unfold decomposeVirtualOffset
      rw [Prod.mk.injEq]
      constructor <;> omega
  · intro hi
    unfold composeVirtualOffset
    rw [if_neg (by omega)]

theorem virtualOffset_compose_decompose_witness :
    (composeVirtualOffset 7 9 = Except.ok (7 * 65536 + 9) ∧
      decomposeVirtualOffset (7 * 65536 + 9) = (7, 9)) ∧
    composeVirtualOffset 3 70000 = Except.error IoErrorKind.invalidInput :=
  ⟨(virtualOffset_compose_decompose 7 9).1 (by decide) (by decide),
   (virtualOffset_compose_decompose 3 70000).2 (by decide)⟩

/-- Claim C4: reading one BAM record from an exhausted source (fewer than
the 4 block-size bytes available) yields Ok(0), end of input; a declared
block size larger than the remaining bytes fails with an UnexpectedEof
error, an error kind distinct from the InvalidData kind of format-validity
errors; otherwise the record is decoded and the declared block size is
returned. -/
theorem read_record_eof_truncation_ok
    (d : List Nat → Except IoErrorKind Unit) (src : List Nat) :
    (src.length < 4 → read_record d src = Except.ok 0) ∧
    (4 ≤ src.length → src.length - 4 < readU32le (src.take 4) →
      read_record d src = Except.error IoErrorKind.unexpectedEof) ∧
    (4 ≤ src.length → readU32le (src.take 4) ≤ src.length - 4 →
      d ((src.drop 4).take (readU32le (src.take 4))) = Except.ok () →
      read_record d src = Except.ok (readU32le (src.take 4))) ∧
    IoErrorKind.unexpectedEof ≠ IoErrorKind.invalidData := by
  refine ⟨fun h => ?_, fun h4 hshort => ?_, fun h4 hfit hdec => ?_, by decide⟩
  · unfold read_record
    rw [if_pos h]
  · unfold read_record
    rw [if_neg (by omega)]
    simp only [List.length_drop]
    rw [if_pos hshort]
  · unfold read_record
    rw [if_neg (by omega)]
    simp only [List.length_drop]
    rw [if_neg (by omega), hdec]

theorem read_record_eof_truncation_ok_witness :
    read_record (fun _ => Except.ok ()) [1, 2] = Except.ok 0 ∧
    read_record (fun _ => Except.ok ()) [5, 0, 0, 0, 9, 9] =
      Except.error IoErrorKind.unexpectedEof ∧
    read_record (fun _ => Except.ok ()) [2, 0, 0, 0, 9, 9] = Except.ok 2 ∧
    IoErrorKind.unexpectedEof ≠ IoErrorKind.invalidData := by
  refine ⟨(read_record_eof_truncation_ok (fun _ => Except.ok ()) [1, 2]).1
      (by decide), ?_, ?_,
    (read_record_eof_truncation_ok (fun _ => Except.ok ()) []).2.2.2⟩
  · exact (read_record_eof_truncation_ok (fun _ => Except.ok ())
      [5, 0, 0, 0, 9, 9]).2.1 (by decide) (by decide)
  · have h := (read_record_eof_truncation_ok (fun _ => Except.ok ())
      [2, 0, 0, 0, 9, 9]).2.2.1 (by decide) (by decide) rfl
    simpa using h

/-- Claim C8: the field ranges of a BED record's Bounds tile the buffer:
the reference sequence name range starts at 0 and ends where the feature
start range starts, the feature start range ends where the feature end
range starts, and get i is Some exactly when i is below the number of
recorded other-field ends, in which case the range starts where the
previous other-field range ends, or at 0 for i = 0; get is total and never
panics. -/
theorem bedBounds_ranges_tile (b : BedBounds) (i : Nat) :
    (b.reference_sequence_name_range).fst = 0 ∧
    (b.reference_sequence_name_range).snd = (b.feature_start_range).fst ∧
    (b.feature_start_range).snd = (b.feature_end_range).fst ∧
    ((b.get i).isSome ↔ i < b.other_fields_ends.length) ∧
    (0 < b.other_fields_ends.length → (b.get 0).map Prod.fst = some 0) ∧
    (i + 1 < b.other_fields_ends.length →
      (b.get (i + 1)).map Prod.fst = (b.get i).map Prod.snd) := by
  refine ⟨rfl, rfl, rfl, ?_, fun h0 => ?_, fun hsucc => ?_⟩
  · cases h : b.other_fields_ends[i]? with
    | none =>
      have hlen := List.getElem?_eq_none_iff.mp h
      simp [BedBounds.get, h]
      omega
    | some e =>
      have hlt := (List.getElem?_eq_some.mp h).1
      simpa [BedBounds.get, h] using hlt
  · cases h : b.other_fields_ends[0]? with
    | none => exact absurd (List.getElem?_eq_none_iff.mp h) (by omega)
    | some e => simp [BedBounds.get, h, checkedSub]
  · cases h1 : b.other_fields_ends[i + 1]? with
    | none => exact absurd (List.getElem?_eq_none_iff.mp h1) (by omega)
    | some e1 =>
      cases h0 : b.other_fields_ends[i]? with
      | none => exact absurd (List.getElem?_eq_none_iff.mp h0) (by omega)
      | some e0 => simp [BedBounds.get, h1, h0, checkedSub]

theorem bedBounds_ranges_tile_witness :
    ((BedBounds.mk 3 5 7 [9, 12]).get 0).map Prod.fst = some 0 ∧
    ((BedBounds.mk 3 5 7 [9, 12]).get 1).map Prod.fst =
      ((BedBounds.mk 3 5 7 [9, 12]).get 0).map Prod.snd :=
  ⟨(bedBounds_ranges_tile (BedBounds.mk 3 5 7 [9, 12]) 0).2.2.2.2.1
      (by decide),
   (bedBounds_ranges_tile (BedBounds.mk 3 5 7 [9, 12]) 0).2.2.2.2.2
      (by decide)⟩

theorem zip_getElem? {α β : Type} (a : List α) (b : List β) (i : Nat) :
    (a.zip b)[i]? = a[i]?.bind fun x => b[i]?.map fun y => (x, y) := by
  induction a generalizing b i with
  | nil => simp
  | cons x t ih =>
    cases b with
    | nil => simp
    | cons y s =>
      cases i with
      | zero => simp [List.zip_cons_cons]
      | succ j => simp [List.zip_cons_cons, ih]

/-- Claim C7: per-reference metadata and the global unplaced-unmapped count
are optional: each idxstats row reports the mapped and unmapped record
counts of that reference's metadata when present and the pair (0, 0) when
absent, and the final row reports the global unplaced-unmapped count when
present and 0 when absent. -/
theorem idxstats_metadata_optionality (refs : List (Nat × Nat))
    (index : BaiIndex) (i : Nat) (r : Nat × Nat) (s : BaiReferenceSequence) :
    (refs[i]? = some r → index.reference_sequences[i]? = some s →
      (s.metadata = none →
        (idxstatsRows refs index)[i]? = some (r.fst, r.snd, 0, 0)) ∧
      (∀ m : BaiMetadata, s.metadata = some m →
        (idxstatsRows refs index)[i]? =
          some (r.fst, r.snd, m.mapped_record_count,
            m.unmapped_record_count))) ∧
    (index.unplaced_unmapped_record_count = none →
      idxstatsUnplaced index = 0) ∧
    (∀ c : Nat, index.unplaced_unmapped_record_count = some c →
      idxstatsUnplaced index = c) := by
  refine ⟨fun hr hs => ⟨fun hnone => ?_, fun m hm => ?_⟩,
    fun hnone => ?_, fun c hc => ?_⟩
  · simp [idxstatsRows, zip_getElem?, hr, hs, hnone]
  · simp [idxstatsRows, zip_getElem?, hr, hs, hm]
  · simp [idxstatsUnplaced, hnone]
  · simp [idxstatsUnplaced, hc]

theorem idxstats_metadata_optionality_witness :
    (idxstatsRows [(1, 100), (2, 200)]
      (BaiIndex.mk
        [BaiReferenceSequence.mk [] [] (some (BaiMetadata.mk 8 9 30 40)),
         BaiReferenceSequence.mk [] [] none]
        (some 5)))[0]? = some (1, 100, 30, 40) ∧
    (idxstatsRows [(1, 100), (2, 200)]
      (BaiIndex.mk
        [BaiReferenceSequence.mk [] [] (some (BaiMetadata.mk 8 9 30 40)),
         BaiReferenceSequence.mk [] [] none]
        (some 5)))[1]? = some (2, 200, 0, 0) ∧
    idxstatsUnplaced
      (BaiIndex.mk
        [BaiReferenceSequence.mk [] [] (some (BaiMetadata.mk 8 9 30 40)),
         BaiReferenceSequence.mk [] [] none]
        (some 5)) = 5 ∧
    idxstatsUnplaced (BaiIndex.mk [] none) = 0 := by
  refine ⟨((idxstats_metadata_optionality [(1, 100), (2, 200)]
      (BaiIndex.mk
        [BaiReferenceSequence.mk [] [] (some (BaiMetadata.mk 8 9 30 40)),
         BaiReferenceSequence.mk [] [] none]
        (some 5)) 0 (1, 100)
      (BaiReferenceSequence.mk [] [] (some (BaiMetadata.mk 8 9 30 40)))).1
      rfl rfl).2 (BaiMetadata.mk 8 9 30 40) rfl,
    ((idxstats_metadata_optionality [(1, 100), (2, 200)]
      (BaiIndex.mk
        [BaiReferenceSequence.mk [] [] (some (BaiMetadata.mk 8 9 30 40)),
         BaiReferenceSequence.mk [] [] none]
        (some 5)) 1 (2, 200)
      (BaiReferenceSequence.mk [] [] none)).1 rfl rfl).1 rfl,
    (idxstats_metadata_optionality []
      (BaiIndex.mk
        [BaiReferenceSequence.mk [] [] (some (BaiMetadata.mk 8 9 30 40)),
         BaiReferenceSequence.mk [] [] none]
        (some 5)) 0 (0, 0)
      (BaiReferenceSequence.mk [] [] none)).2.2 5 rfl,
    (idxstats_metadata_optionality [] (BaiIndex.mk [] none) 0 (0, 0)
      (BaiReferenceSequence.mk [] [] none)).2.1 rfl⟩

theorem take_append_of_length {α : Type} (l₁ l₂ : List α) (n : Nat)
    (h : l₁.length = n) : (l₁ ++ l₂).take n = l₁ := by
  subst h; exact List.take_left l₁ l₂

theorem drop_append_of_length {α : Type} (l₁ l₂ : List α) (n : Nat)
    (h : l₁.length = n) : (l₁ ++ l₂).drop n = l₂ := by
  subst h; exact List.drop_left l₁ l₂

theorem decodeBlock_framed (p sz t1 t2 : List Nat)
    (hsz : sz.length = 2) (ht1 : t1.length = 4) (ht2 : t2.length = 4)
    (hr16 : readU16le sz = (p.length + 16) % 65536)
    (hrt1 : readU32le t1 = checksum32 p)
    (hrt2 : readU32le t2 = p.length % 4294967296) :
    decodeBlock (blockHeaderMagic ++ (sz ++ (p ++ (t1 ++ t2)))) =
      Except.ok p := by
  have hlenB : (blockHeaderMagic ++ (sz ++ (p ++ (t1 ++ t2)))).length =
      p.length + 17 := by
    simp [blockHeaderMagic, hsz, ht1, ht2]
    omega
  have h7 : (blockHeaderMagic ++ (sz ++ (p ++ (t1 ++ t2)))).take 7 =
      blockHeaderMagic := take_append_of_length _ _ 7 rfl
  have hd7 : (blockHeaderMagic ++ (sz ++ (p ++ (t1 ++ t2)))).drop 7 =
      sz ++ (p ++ (t1 ++ t2)) := drop_append_of_length _ _ 7 rfl
  have hsz2 : (sz ++ (p ++ (t1 ++ t2))).take 2 = sz :=
    take_append_of_length _ _ 2 hsz
  have hd9 : (blockHeaderMagic ++ (sz ++ (p ++ (t1 ++ t2)))).drop 9 =
      p ++ (t1 ++ t2) := by
    rw [show (9 : Nat) = 7 + 2 from rfl, ← List.drop_drop, hd7]
    exact drop_append_of_length _ _ 2 hsz
  have hp : (p ++ (t1 ++ t2)).take p.length = p :=
    take_append_of_length _ _ _ rfl
  have htr : (blockHeaderMagic ++ (sz ++ (p ++ (t1 ++ t2)))).drop
      (p.length + 17 - 8) = t1 ++ t2 := by
    rw [show p.length + 17 - 8 = 9 + p.length from by omega, ← List.drop_drop,
      hd9]
    exact drop_append_of_length _ _ _ rfl
  have ht4 : (t1 ++ t2).take 4 = t1 := take_append_of_length _ _ 4 ht1
  have htd4 : (t1 ++ t2).drop 4 = t2 := drop_append_of_length _ _ 4 ht1
  have h171 : p.length + 17 - 1 = p.length + 16 := by omega
  have h1717 : p.length + 17 - 17 = p.length := by omega
  simp only [decodeBlock, deflateDecompress, hlenB, h171, h1717, h7, hd7,
    hd9, hsz2, hp, htr, ht4, htd4, hr16, hrt1, hrt2]
  simp

/-- Claim C1: block codec round trip.  For every byte buffer of at most
65536 bytes and every compression level, decoding the block produced by
encoding the buffer at that level yields the original buffer. -/
theorem decodeBlock_encodeBlock (level : Nat) (payload : List Nat)
    (_h : payload.length ≤ 65536) :
    decodeBlock (encodeBlock level payload) = Except.ok payload := by
  have hb : encodeBlock level payload =
      blockHeaderMagic ++ (u16le ((payload.length + 16) % 65536) ++
        (payload ++ (u32le (checksum32 payload) ++
          u32le (payload.length % 4294967296)))) := by
    simp [encodeBlock, deflateCompress, List.append_assoc]
  rw [hb]
  exact decodeBlock_framed payload _ _ _ rfl rfl rfl
    (readU16le_u16le _ (Nat.mod_lt _ (by omega)))
    (readU32le_u32le _ (checksum32_lt payload))
    (readU32le_u32le _ (Nat.mod_lt _ (by omega)))

theorem decodeBlock_encodeBlock_witness :
    decodeBlock (encodeBlock 6 [1, 2, 3]) = Except.ok [1, 2, 3] :=
  decodeBlock_encodeBlock 6 [1, 2, 3] (by decide)

theorem find_completed (level : Nat) (chunks : List (List Nat))
    (ord : List Nat) (i : Nat) (hik : i < chunks.length) (hmem : i ∈ ord) :
    ((ord.filterMap fun j =>
        if j < chunks.length then
          some (j, encodeBlock level (chunks.getD j []))
        else none).find? fun t => t.fst == i) =
      some (i, encodeBlock level (chunks.getD i [])) := by
  induction ord with
  | nil => simp at hmem
  | cons j t ih =>
    by_cases hj : j = i
    · subst hj
      simp only [List.filterMap_cons, if_pos hik]
      exact List.find?_cons_of_pos _ (by simp)
    · have hmem2 : i ∈ t := by
        rcases List.mem_cons.mp hmem with h | h
        · exact absurd h.symm hj
        · exact h
      by_cases hjk : j < chunks.length
      · simp only [List.filterMap_cons, if_pos hjk]
        rw [List.find?_cons_of_neg _ (by simp [hj])]
        exact ih hmem2
      · simp only [List.filterMap_cons, if_neg hjk]
        exact ih hmem2

theorem range_map_getD {α β : Type} (l : List α) (d : α) (f : α → β) :
    (List.range l.length).map (fun i => f (l.getD i d)) = l.map f := by
  induction l with
  | nil => simp
  | cons a t ih =>
    simp only [List.length_cons, List.range_succ_eq_map, List.map_cons,
      List.map_map, List.getD_cons_zero]
    rw [← ih]
    congr 1

theorem commitInOrder_perm (level : Nat) (chunks : List (List Nat))
    (ord : List Nat) (hperm : ord.Perm (List.range chunks.length)) :
    commitInOrder
      (ord.filterMap fun j =>
        if j < chunks.length then
          some (j, encodeBlock level (chunks.getD j []))
        else none)
      chunks.length = (chunks.map (encodeBlock level)).flatten := by
  unfold commitInOrder
  congr 1
  rw [← range_map_getD chunks [] (encodeBlock level)]
  apply List.map_congr_left
  intro i hi
  have hik : i < chunks.length := List.mem_range.mp hi
  have hmem : i ∈ ord := hperm.mem_iff.mpr hi
  rw [find_completed level chunks ord i hik hmem]
  rfl

/-- Claim C2: for every input, every compression level, and every worker
pool size in the set 1, 2, 8, the output of the parallel block stream
writer is byte-for-byte identical to the output of the sequential writer,
for every completion order of the worker pool (any permutation of the task
indices). -/
theorem parWrite_eq_seqWrite (input : List Nat) (level : Nat)
    (workers : Nat) (order : List Nat)
    (_hw : workers = 1 ∨ workers = 2 ∨ workers = 8)
    (horder : order.Perm (List.range (chunkify input).length)) :
    parWrite workers order level input = seqWrite level input := by
  have h1 : parWrite workers order level input =
      commitInOrder
        (order.filterMap fun j =>
          if j < (chunkify input).length then
            some (j, encodeBlock level ((chunkify input).getD j []))
          else none)
        (chunkify input).length ++ eofMarker := rfl
  rw [h1, seqWrite]
  congr 1
  exact commitInOrder_perm level (chunkify input) order horder

theorem parWrite_eq_seqWrite_witness :
    parWrite 2 [0] 6 [1, 2, 3] = seqWrite 6 [1, 2, 3] :=
  parWrite_eq_seqWrite [1, 2, 3] 6 2 [0] (Or.inr (Or.inl rfl))
    (by simp [chunkify]; rfl)
